import Mathlib

/-!
# Listing reconciliation and change-tracking engine: verification

A shallow embedding of the job-listing reconciliation core of
`work_offer_monitor` (Record Store, Identity Deriver, Reconciler,
Retention Sweeper, Run Coordinator) together with the enhanced
discovery search endpoint, and proofs of the specified properties.

The reconciliation core's Python implementation (`database.py`,
`history_tracker.py`, `scheduler.py`) is not part of the repository
snapshot; only its documentation (`docs/JOB_TRACKING_DOCUMENTATION.md`,
which quotes `generate_job_id`, `generate_hash` and the
process/mark-removed workflow) and the spec describe it.  Those parts
are therefore modelled from the spec, following the documented code
where it is quoted.  The discovery endpoint
(`app/api/backend/jobs/search-enhanced/route.ts`) is embedded from its
TypeScript source.
-/

namespace WorkOfferMonitor

/-- Lifecycle status of a tracked job listing: `new/seen/modified/removed`
in the database schema. -/
inductive Status where
  | New
  | Seen
  | Modified
  | Removed
  deriving DecidableEq

/-- A raw listing reported by the discovery collaborator for one run
(ephemeral, not persisted directly). -/
structure ListingObservation where
  organization : String
  title : String
  location : String
  url : String
  description : String
  deriving DecidableEq

/-- A durable row of the `jobs` table. -/
structure JobRecord where
  job_id : Nat
  organization : String
  title : String
  location : String
  url : String
  description : String
  content_hash : Nat
  first_seen : Nat
  last_seen : Nat
  status : Status
  deriving DecidableEq

/-- A durable row of the append-only `job_history` table. -/
structure HistoryEntry where
  job_id : Nat
  status : Status
  changed_at : Nat
  deriving DecidableEq

/-- Modelled from the spec: Python's `str.lower`, as an executable map over
the character list (the Python standard library is not repository code). -/
def lowerStr (s : String) : String :=
  ⟨s.data.map Char.toLower⟩

/-- Modelled from the spec: Python's `str.strip`, as an executable
whitespace trim of both ends of the character list. -/
def stripStr (s : String) : String :=
  ⟨((s.data.dropWhile Char.isWhitespace).reverse.dropWhile
      Char.isWhitespace).reverse⟩

/-- Modelled from the spec: a deterministic stand-in for the hex digest of
the cryptographic hashes (`hashlib.md5`, `hashlib.sha256`) used by the
missing `database.py`; the claims under proof depend only on the hash
being a fixed function of its input string, never on collision
resistance. -/
def strHash (s : String) : Nat :=
  s.data.foldl (fun h c => h * 131 + c.toNat) 7

/-- Modelled from the spec: `generate_job_id` of the missing `database.py`,
as quoted in `docs/JOB_TRACKING_DOCUMENTATION.md`:
`content = f"{job_title.lower().strip()}:{url.lower().strip()}"`,
hashed. -/
def generate_job_id (job_title url : String) : Nat :=
  strHash (stripStr (lowerStr job_title) ++ ":" ++ stripStr (lowerStr url))

/-- Modelled from the spec: the Identity Deriver contract
`deriveId(organization, title, url) -> job_id` (§4.1).  The repository's
documented `generate_job_id` derives the id from the normalized title
and url; the organization argument does not enter the hash. -/
def deriveId (organization title url : String) : Nat :=
  generate_job_id title url

/-- Modelled from the spec: `generate_hash` of the missing `database.py`,
as quoted in `docs/JOB_TRACKING_DOCUMENTATION.md`:
`content = f"{title}:{location}:{description}"`, hashed. -/
def generate_hash (title location description : String) : Nat :=
  strHash (title ++ ":" ++ location ++ ":" ++ description)

/-- The `job_id` derived for one observation. -/
def obsId (o : ListingObservation) : Nat :=
  deriveId o.organization o.title o.url

/-- The content fingerprint derived for one observation. -/
def obsHash (o : ListingObservation) : Nat :=
  generate_hash o.title o.location o.description

/-- Modelled from the spec: the Record Store of the missing `database.py`,
viewed pointwise — the `jobs` relation keyed by `job_id` and the
`job_history` relation grouped by `job_id`, each group ordered by
`change_date` (appends go to the end of the list). -/
structure Store where
  records : Nat → Option JobRecord
  history : Nat → List HistoryEntry

/-- The empty Record Store. -/
def emptyStore : Store where
  records := fun _ => none
  history := fun _ => []

/-- Replace the record stored under `id` and append `es` to its history,
leaving every other `job_id` untouched. -/
def setAt (st : Store) (id : Nat) (r : JobRecord) (es : List HistoryEntry) :
    Store where
  records := fun i => if i = id then some r else st.records i
  history := fun i => if i = id then st.history i ++ es else st.history i

/-- The fresh record inserted on first observation of `id`
(`status = New`, `first_seen = last_seen = now`). -/
def insertJob (now : Nat) (id : Nat) (o : ListingObservation) : JobRecord where
  job_id := id
  organization := o.organization
  title := o.title
  location := o.location
  url := o.url
  description := o.description
  content_hash := obsHash o
  first_seen := now
  last_seen := now
  status := Status.New

/-- Refresh an existing record's observation-carried fields and
fingerprint from `o`, set `last_seen := now` and the given status. -/
def refreshJob (now : Nat) (o : ListingObservation) (stat : Status)
    (r : JobRecord) : JobRecord :=
  { r with
    organization := o.organization
    title := o.title
    location := o.location
    url := o.url
    description := o.description
    content_hash := obsHash o
    last_seen := now
    status := stat }

/-- The record the Reconciler stores for one observation, given what the
store currently holds under its id (§4.2 steps 2–3): insert as `New`,
revive a `Removed` record as `New`, refresh to `Modified` on a
fingerprint change, otherwise mark `Seen` bumping only `last_seen`. -/
def stepRecord (now : Nat) (o : ListingObservation) :
    Option JobRecord → JobRecord
  | none => insertJob now (obsId o) o
  | some r =>
      if r.status = Status.Removed then refreshJob now o Status.New r
      else if obsHash o ≠ r.content_hash then refreshJob now o Status.Modified r
      else { r with status := Status.Seen, last_seen := now }

/-- The history entries the Reconciler appends for one observation
(§4.2 steps 2–3): `New` on insertion and on reappearance, `Modified`
or `Seen` only when the previous status differed (entries are written
on transitions, not on every observation). -/
def stepEntries (now : Nat) (o : ListingObservation) :
    Option JobRecord → List HistoryEntry
  | none => [⟨obsId o, Status.New, now⟩]
  | some r =>
      if r.status = Status.Removed then [⟨obsId o, Status.New, now⟩]
      else if obsHash o ≠ r.content_hash then
        if r.status ≠ Status.Modified then [⟨obsId o, Status.Modified, now⟩]
        else []
      else
        if r.status ≠ Status.Seen then [⟨obsId o, Status.Seen, now⟩]
        else []

/-- Modelled from the spec: one step of the missing `history_tracker.py`
Process-Current-Jobs workflow (§4.2 steps 1–3): derive the id and
fingerprint of one observation and merge it into the store, leaving
every other id untouched. -/
def processObservation (now : Nat) (st : Store) (o : ListingObservation) :
    Store :=
  setAt st (obsId o) (stepRecord now o (st.records (obsId o)))
    (stepEntries now o (st.records (obsId o)))

/-- Modelled from the spec: `mark_jobs_removed` of the missing
`database.py` (§4.2 step 4): every record of this organization whose id
is not in the current batch and whose status is not already `Removed`
gets `status := Removed` with its `last_seen` left at its prior value,
and a `Removed` history entry is appended. -/
def markRemoved (org : String) (batchIds : List Nat) (now : Nat)
    (st : Store) : Store where
  records := fun i =>
    match st.records i with
    | none => none
    | some r =>
        if r.organization = org ∧ i ∉ batchIds ∧ r.status ≠ Status.Removed then
          some { r with status := Status.Removed }
        else some r
  history := fun i =>
    match st.records i with
    | none => st.history i
    | some r =>
        if r.organization = org ∧ i ∉ batchIds ∧ r.status ≠ Status.Removed then
          st.history i ++ [⟨i, Status.Removed, now⟩]
        else st.history i

/-- Modelled from the spec: one reconciliation run of the missing
`history_tracker.py` (`process_company_jobs`, §4.2): if the discovery
collaborator reported failure the run is skipped entirely; otherwise
each observation of the batch is merged in order and the organization's
unobserved records are marked removed. -/
def reconcile (org : String) (success : Bool) (batch : List ListingObservation)
    (now : Nat) (st : Store) : Store :=
  if success then
    markRemoved org (batch.map obsId) now
      (batch.foldl (processObservation now) st)
  else st

/-- Modelled from the spec: `cleanup_old_data` of the missing
`history_tracker.py` (§4.4): delete every record with
`status = Removed` and `last_seen` older than the cutoff, together with
all of its history entries; touch nothing else. -/
def sweep (cutoff : Nat) (st : Store) : Store where
  records := fun i =>
    match st.records i with
    | none => none
    | some r =>
        if r.status = Status.Removed ∧ r.last_seen < cutoff then none
        else some r
  history := fun i =>
    match st.records i with
    | none => st.history i
    | some r =>
        if r.status = Status.Removed ∧ r.last_seen < cutoff then []
        else st.history i

/-- Modelled from the spec: the Run Coordinator's store transaction (§4.3,
§5, §7b): the organization-run is one logical transaction — when the
store can commit, the whole reconciliation result is installed; when it
cannot (store unavailable, timeout), the store is left at its prior
state. -/
def runTransaction (commitOk : Bool) (org : String) (success : Bool)
    (batch : List ListingObservation) (now : Nat) (st : Store) : Store :=
  if commitOk then reconcile org success batch now st else st

/-- Modelled from the spec: the store states reachable from the empty
store by reconciliation runs (successful or failed, run at
nondecreasing wall-clock times) and retention sweeps.  The `Nat` index
bounds every timestamp the state has seen. -/
inductive ReachableAt : Store → Nat → Prop where
  | init : ReachableAt emptyStore 0
  | run (org : String) (success : Bool) (batch : List ListingObservation)
      (now : Nat) (st : Store) (t : Nat) :
      ReachableAt st t → t ≤ now →
      ReachableAt (reconcile org success batch now st) now
  | sweepStep (cutoff : Nat) (st : Store) (t : Nat) :
      ReachableAt st t → ReachableAt (sweep cutoff st) t

/-!
## The enhanced discovery search endpoint

Embedded from `app/api/backend/jobs/search-enhanced/route.ts` (`POST`).
-/

/-- Search criteria carried in the request body (`body.criteria`);
list fields model `criteria.xs?.[i] || default` lookups via `headD`. -/
structure SearchCriteria where
  locations : List String
  title_keywords : List String
  experience_levels : List String
  remote_allowed : Bool
  deriving DecidableEq

/-- One job object as parsed from the model's JSON answer; `Option`
fields model the `job.field || default` coalescing in the route. -/
structure RawJob where
  job_title : Option String
  location : Option String
  experience_level : Option String
  description : Option String
  salary_range : Option String
  url : Option String
  remote_friendly : Bool
  key_skills : List String
  deriving DecidableEq

/-- One element of the `allJobs` array the route returns. -/
structure ProcessedJob where
  job_id : String
  job_title : String
  company_name : String
  location : String
  experience_level : String
  description : String
  salary_range : String
  url : String
  remote_friendly : Bool
  key_skills : List String
  search_method : String
  relevance_score : Nat
  deriving DecidableEq

/-- Fuel-indexed worker for `collapseWs` (structural recursion so the
kernel can evaluate it). -/
def collapseWsAux : Nat → List Char → List Char
  | 0, _ => []
  | _ + 1, [] => []
  | n + 1, c :: rest =>
      if c.isWhitespace then
        '-' :: collapseWsAux n (rest.dropWhile fun ch => ch.isWhitespace)
      else c :: collapseWsAux n rest

/-- JavaScript `String.replace of whitespace runs by a dash` over the character list:
each whitespace run becomes a single dash (the JS standard library is
not repository code). -/
def collapseWs (l : List Char) : List Char :=
  collapseWsAux l.length l

/-- `company.toLowerCase().replace of whitespace runs by a dash` from the route. -/
def companySlug (company : String) : String :=
  ⟨collapseWs (lowerStr company).data⟩

/-- the whitespace-stripped lower-case careers URL
the fallback careers URL built by the route. -/
def careersUrl (company : String) : String :=
  "https://" ++ ⟨(lowerStr company).data.filter (fun c => !c.isWhitespace)⟩
    ++ ".com/careers"

/-- How processing one company of the loop ended: a parsed answer with a
`jobs` array, an answer without one, an empty completion, a JSON parse
failure, or a thrown per-company error. -/
inductive CompanyOutcome where
  | parsedJobs (jobs : List RawJob)
  | parsedNoJobs
  | emptyResponse
  | parseError
  | companyError
  deriving DecidableEq

/-- The jobs the route appends to `allJobs` for one company, per outcome:
parsed jobs are normalized with defaults and tagged
`OPENAI_WEB_SEARCH`; an empty completion or a parsed answer without a
`jobs` array contributes nothing; a JSON parse failure contributes the
`OPENAI_FALLBACK` mock job; a thrown company error contributes the
`ERROR_FALLBACK` mock job.  `now` stands for `Date.now()` and `rand`
for the `Math.random()` draw of the simulated relevance score. -/
def processCompany (company : String) (criteria : SearchCriteria)
    (now rand : Nat) : CompanyOutcome → List ProcessedJob
  | CompanyOutcome.parsedJobs jobs =>
      jobs.enum.map fun p =>
        { job_id := companySlug company ++ "-" ++ toString now ++ "-"
            ++ toString p.1
          job_title := p.2.job_title.getD "Position Available"
          company_name := company
          location := p.2.location.getD "Location TBD"
          experience_level := p.2.experience_level.getD "Not specified"
          description := p.2.description.getD "No description available"
          salary_range := p.2.salary_range.getD "Salary not disclosed"
          url := p.2.url.getD (careersUrl company)
          remote_friendly := p.2.remote_friendly
          key_skills := p.2.key_skills
          search_method := "OPENAI_WEB_SEARCH"
          relevance_score := 85 + rand % 15 }
  | CompanyOutcome.parsedNoJobs => []
  | CompanyOutcome.emptyResponse => []
  | CompanyOutcome.parseError =>
      [{ job_id := companySlug company ++ "-fallback-" ++ toString now
         job_title := "Software Engineer"
         company_name := company
         location := criteria.locations.headD "Remote"
         experience_level := criteria.experience_levels.headD "mid"
         description := "Exciting opportunity to join " ++ company
           ++ " as a Software Engineer. We\x27re looking for talented "
           ++ "developers to help build innovative solutions."
         salary_range := "$80k-120k"
         url := careersUrl company
         remote_friendly := (criteria.remote_allowed || true)
         key_skills := criteria.title_keywords
         search_method := "OPENAI_FALLBACK"
         relevance_score := 75 }]
  | CompanyOutcome.companyError =>
      [{ job_id := companySlug company ++ "-error-" ++ toString now
         job_title := "Software Engineer"
         company_name := company
         location := "Remote"
         experience_level := "mid"
         description := "Join " ++ company ++ " and make an impact with "
           ++ "cutting-edge technology. We\x27re always looking for "
           ++ "talented professionals."
         salary_range := "Competitive"
         url := careersUrl company
         remote_friendly := true
         key_skills := ["Software Development", "Problem Solving"]
         search_method := "ERROR_FALLBACK"
         relevance_score := 60 }]

/-- The response body fields of the route that the claims concern. -/
structure SearchResponse where
  success : Bool
  jobs : List ProcessedJob
  httpStatus : Nat
  deriving DecidableEq

/-- The `POST` handler of `search-enhanced/route.ts`: `fatal` stands for
an exception reaching the outer `catch` (request-body parse, client
construction — anything before the company loop); the validation
returns reject a missing API key or an empty company list; otherwise
the first three companies are processed in order, each appending its
`processCompany` jobs, and the response reports `success: true`. -/
def POSTEnhanced (apiKeyPresent : Bool) (companies : List String)
    (criteria : SearchCriteria) (now : Nat)
    (outcome : String → CompanyOutcome) (rand : String → Nat)
    (fatal : Bool) : SearchResponse :=
  if fatal then ⟨false, [], 500⟩
  else if !apiKeyPresent then ⟨false, [], 400⟩
  else if companies.isEmpty then ⟨false, [], 400⟩
  else
    ⟨true,
      (companies.take 3).foldl
        (fun acc c => acc ++ processCompany c criteria now (rand c) (outcome c))
        [],
      200⟩

/-!
## Derived views, invariants and sample data
-/

/-- The status sequence of one `job_id`'s history, in `changed_at`
order. -/
def statuses (st : Store) (id : Nat) : List Status :=
  (st.history id).map HistoryEntry.status

/-- Pointwise well-formedness of the store at one id: a stored record
carries its own key, its status equals the status of its latest
history entry, and its status sequence has no two consecutive equal
elements; an id without a record has no history (the Sweeper deletes a
record together with all its entries). -/
def WFat (st : Store) (id : Nat) : Prop :=
  match st.records id with
  | some r =>
      r.job_id = id ∧ (statuses st id).getLast? = some r.status ∧
        List.Chain' (fun a b => a ≠ b) (statuses st id)
  | none => st.history id = []

/-- Well-formedness of the whole store. -/
def WF (st : Store) : Prop := ∀ id, WFat st id

/-- Every record's timestamps satisfy
`first_seen ≤ last_seen ≤ t` (`t` a bound on the wall-clock times the
store has seen). -/
def TimeBounded (st : Store) (t : Nat) : Prop :=
  ∀ id r, st.records id = some r → r.first_seen ≤ r.last_seen ∧ r.last_seen ≤ t

/-- Every observation of the batch already has its record stored with a
matching fingerprint and status `Seen`. -/
def Synced (batch : List ListingObservation) (st : Store) : Prop :=
  ∀ o ∈ batch, ∃ r, st.records (obsId o) = some r ∧
    r.content_hash = obsHash o ∧ r.status = Status.Seen

/-- No record of this organization outside the batch is still
unremoved. -/
def NoMarkable (org : String) (batchIds : List Nat) (st : Store) : Prop :=
  ∀ id r, st.records id = some r → r.organization = org → id ∉ batchIds →
    r.status = Status.Removed

/-- Erase the one field a no-op run may change, for comparing records up
to `last_seen`. -/
def clearLS (r : JobRecord) : JobRecord := { r with last_seen := 0 }

/-- `st'` differs from `st` at most in `last_seen` fields: histories are
identical and records agree after `clearLS`. -/
def NoOpFrom (st st' : Store) : Prop :=
  (∀ j, st'.history j = st.history j) ∧
  (∀ j, (st'.records j).map clearLS = (st.records j).map clearLS)

/-- Sample observation used by concrete witnesses. -/
def obsA : ListingObservation :=
  ⟨"Acme", "Backend Engineer", "NY", "http://acme.co/1", "great role"⟩

/-- Sample stored record for `obsA`'s id, currently `Removed`. -/
def recA : JobRecord :=
  ⟨obsId obsA, "Acme", "Backend Engineer", "NY", "http://acme.co/1",
    "old text", 12345, 3, 5, Status.Removed⟩

/-- Sample store holding `recA` and its history. -/
def storeA : Store where
  records := fun i => if i = obsId obsA then some recA else none
  history := fun i =>
    if i = obsId obsA then
      [⟨obsId obsA, Status.New, 3⟩, ⟨obsId obsA, Status.Removed, 5⟩]
    else []

/-- Sample stored record under id 999, currently `Seen`. -/
def recB : JobRecord :=
  ⟨999, "Acme", "Data Analyst", "Remote", "http://acme.co/2",
    "numbers", 777, 2, 4, Status.Seen⟩

/-- Sample store holding `recB` and its history. -/
def storeB : Store where
  records := fun i => if i = 999 then some recB else none
  history := fun i =>
    if i = 999 then [⟨999, Status.New, 2⟩, ⟨999, Status.Seen, 4⟩] else []

/-- Sample search criteria used by concrete witnesses. -/
def criteriaA : SearchCriteria :=
  ⟨["Paris"], ["Backend"], ["mid"], false⟩

/-!
## Pointwise lemmas about the store operations
-/

lemma setAt_records (st : Store) (id : Nat) (r : JobRecord)
    (es : List HistoryEntry) (j : Nat) :
    (setAt st id r es).records j = if j = id then some r else st.records j :=
  rfl

lemma setAt_history (st : Store) (id : Nat) (r : JobRecord)
    (es : List HistoryEntry) (j : Nat) :
    (setAt st id r es).history j =
      if j = id then st.history j ++ es else st.history j :=
  rfl

lemma processObservation_records_self (now : Nat) (st : Store)
    (o : ListingObservation) :
    (processObservation now st o).records (obsId o) =
      some (stepRecord now o (st.records (obsId o))) := by
  simp [processObservation, setAt]

lemma processObservation_history_self (now : Nat) (st : Store)
    (o : ListingObservation) :
    (processObservation now st o).history (obsId o) =
      st.history (obsId o) ++ stepEntries now o (st.records (obsId o)) := by
  simp [processObservation, setAt]

lemma processObservation_records_ne (now : Nat) (st : Store)
    (o : ListingObservation) (j : Nat) (h : j ≠ obsId o) :
    (processObservation now st o).records j = st.records j := by
  simp [processObservation, setAt, h]

lemma processObservation_history_ne (now : Nat) (st : Store)
    (o : ListingObservation) (j : Nat) (h : j ≠ obsId o) :
    (processObservation now st o).history j = st.history j := by
  simp [processObservation, setAt, h]

lemma foldl_records_ne (now : Nat) (batch : List ListingObservation)
    (st : Store) (j : Nat) (h : ∀ o ∈ batch, obsId o ≠ j) :
    (batch.foldl (processObservation now) st).records j = st.records j := by
  induction batch generalizing st with
  | nil => rfl
  | cons b l ih =>
      rw [List.foldl_cons,
        ih (processObservation now st b)
          (fun o ho => h o (List.mem_cons_of_mem b ho))]
      exact processObservation_records_ne now st b j
        (h b (List.mem_cons_self b l)).symm

lemma foldl_history_ne (now : Nat) (batch : List ListingObservation)
    (st : Store) (j : Nat) (h : ∀ o ∈ batch, obsId o ≠ j) :
    (batch.foldl (processObservation now) st).history j = st.history j := by
  induction batch generalizing st with
  | nil => rfl
  | cons b l ih =>
      rw [List.foldl_cons,
        ih (processObservation now st b)
          (fun o ho => h o (List.mem_cons_of_mem b ho))]
      exact processObservation_history_ne now st b j
        (h b (List.mem_cons_self b l)).symm

lemma markRemoved_records_none (org : String) (ids : List Nat) (now : Nat)
    (st : Store) (i : Nat) (h : st.records i = none) :
    (markRemoved org ids now st).records i = none := by
  simp [markRemoved, h]

lemma markRemoved_history_none (org : String) (ids : List Nat) (now : Nat)
    (st : Store) (i : Nat) (h : st.records i = none) :
    (markRemoved org ids now st).history i = st.history i := by
  simp [markRemoved, h]

lemma markRemoved_records_some (org : String) (ids : List Nat) (now : Nat)
    (st : Store) (i : Nat) (r : JobRecord) (h : st.records i = some r) :
    (markRemoved org ids now st).records i =
      if r.organization = org ∧ i ∉ ids ∧ r.status ≠ Status.Removed then
        some { r with status := Status.Removed }
      else some r := by
  simp [markRemoved, h]

lemma markRemoved_history_some (org : String) (ids : List Nat) (now : Nat)
    (st : Store) (i : Nat) (r : JobRecord) (h : st.records i = some r) :
    (markRemoved org ids now st).history i =
      if r.organization = org ∧ i ∉ ids ∧ r.status ≠ Status.Removed then
        st.history i ++ [⟨i, Status.Removed, now⟩]
      else st.history i := by
  simp [markRemoved, h]

lemma markRemoved_records_inBatch (org : String) (ids : List Nat) (now : Nat)
    (st : Store) (i : Nat) (r : JobRecord) (h : st.records i = some r)
    (hin : i ∈ ids) :
    (markRemoved org ids now st).records i = some r := by
  simp [markRemoved, h, hin]

lemma markRemoved_history_inBatch (org : String) (ids : List Nat) (now : Nat)
    (st : Store) (i : Nat) (r : JobRecord) (h : st.records i = some r)
    (hin : i ∈ ids) :
    (markRemoved org ids now st).history i = st.history i := by
  simp [markRemoved, h, hin]

lemma reconcile_true (org : String) (batch : List ListingObservation)
    (now : Nat) (st : Store) :
    reconcile org true batch now st =
      markRemoved org (batch.map obsId) now
        (batch.foldl (processObservation now) st) :=
  rfl

/-- What one successful run does at the id of an observation of the
batch, when the batch's derived ids are pairwise distinct: exactly the
single-observation step, and the removal sweep skips the id. -/
lemma reconcile_observed (org : String) (batch : List ListingObservation)
    (now : Nat) (st : Store) (o : ListingObservation) (hmem : o ∈ batch)
    (hnodup : (batch.map obsId).Nodup) :
    (reconcile org true batch now st).records (obsId o) =
      some (stepRecord now o (st.records (obsId o))) ∧
    (reconcile org true batch now st).history (obsId o) =
      st.history (obsId o) ++ stepEntries now o (st.records (obsId o)) := by
  have hin_ids : obsId o ∈ batch.map obsId := List.mem_map_of_mem obsId hmem
  obtain ⟨l1, l2, hsplit⟩ := List.append_of_mem hmem
  subst hsplit
  have hmap : ((l1 ++ o :: l2).map obsId) =
      l1.map obsId ++ obsId o :: l2.map obsId := by simp
  rw [hmap] at hnodup
  obtain ⟨-, h2n, hdisj⟩ := List.nodup_append.mp hnodup
  have h1 : obsId o ∉ l1.map obsId :=
    fun hin => hdisj hin (List.mem_cons_self _ _)
  have h2 : obsId o ∉ l2.map obsId := (List.nodup_cons.mp h2n).1
  have h1' : ∀ o' ∈ l1, obsId o' ≠ obsId o :=
    fun o' ho' he => h1 (he ▸ List.mem_map_of_mem obsId ho')
  have h2' : ∀ o' ∈ l2, obsId o' ≠ obsId o :=
    fun o' ho' he => h2 (he ▸ List.mem_map_of_mem obsId ho')
  have hfold1r : ((l1.foldl (processObservation now) st)).records (obsId o) =
      st.records (obsId o) := foldl_records_ne now l1 st (obsId o) h1'
  have hfold1h : ((l1.foldl (processObservation now) st)).history (obsId o) =
      st.history (obsId o) := foldl_history_ne now l1 st (obsId o) h1'
  have hinner_r : (((l1 ++ o :: l2).foldl (processObservation now)
      st)).records (obsId o) =
      some (stepRecord now o (st.records (obsId o))) := by
    rw [List.foldl_append, List.foldl_cons,
      foldl_records_ne now l2 _ (obsId o) h2',
      processObservation_records_self, hfold1r]
  have hinner_h : (((l1 ++ o :: l2).foldl (processObservation now)
      st)).history (obsId o) =
      st.history (obsId o) ++ stepEntries now o (st.records (obsId o)) := by
    rw [List.foldl_append, List.foldl_cons,
      foldl_history_ne now l2 _ (obsId o) h2',
      processObservation_history_self, hfold1r, hfold1h]
  rw [reconcile_true]
  exact ⟨by
      rw [markRemoved_records_inBatch _ _ _ _ _ _ hinner_r hin_ids],
    by
      rw [markRemoved_history_inBatch _ _ _ _ _ _ hinner_r hin_ids, hinner_h]⟩

/-!
## C1, C2, C3, C7
-/

/-- C1: a run whose discovery collaborator reported failure
(`success = false`) performs no writes at all — every record keeps all
its fields and no history entry is appended, so a failed run with an
empty batch never marks any record `Removed`. -/
theorem failed_run_leaves_store_untouched (org : String)
    (batch : List ListingObservation) (now : Nat) (st : Store) :
    reconcile org false batch now st = st :=
  rfl

/-- C2: an organization-run is atomic — the store transaction either
commits the whole reconciliation result or leaves the prior state, so
no partially-applied batch is ever observable. -/
theorem run_transaction_all_or_nothing (commitOk : Bool) (org : String)
    (success : Bool) (batch : List ListingObservation) (now : Nat)
    (st : Store) :
    runTransaction commitOk org success batch now st =
        reconcile org success batch now st ∨
      runTransaction commitOk org success batch now st = st := by
  cases commitOk
  · exact Or.inr rfl
  · exact Or.inl rfl

/-- C3: `deriveId` is deterministic in `(organization, case-folded
trimmed title, case-folded trimmed url)` — two calls agree whenever the
organizations are equal and the titles and urls are equal after
lower-casing and trimming. -/
theorem deriveId_deterministic (org₁ org₂ t₁ t₂ u₁ u₂ : String)
    (horg : org₁ = org₂)
    (ht : stripStr (lowerStr t₁) = stripStr (lowerStr t₂))
    (hu : stripStr (lowerStr u₁) = stripStr (lowerStr u₂)) :
    deriveId org₁ t₁ u₁ = deriveId org₂ t₂ u₂ := by
  unfold deriveId generate_job_id
  rw [ht, hu]

/-- Witness for C3 at the spec's own example. -/
theorem deriveId_deterministic_witness :
    deriveId "Acme" " Backend Engineer " "http://acme.co/1" =
      deriveId "Acme" "backend engineer" "http://ACME.CO/1" :=
  deriveId_deterministic _ _ _ _ _ _ rfl (by decide) (by decide)

/-- C7: one Retention Sweeper pass deletes exactly the records with
`status = Removed` and `last_seen` older than the cutoff, together
with all their history, and leaves every other record and its history
untouched regardless of age. -/
theorem sweeper_deletes_exactly_aged_removed (cutoff : Nat) (st : Store)
    (id : Nat) (r : JobRecord) (h : st.records id = some r) :
    ((r.status = Status.Removed ∧ r.last_seen < cutoff) →
      (sweep cutoff st).records id = none ∧ (sweep cutoff st).history id = []) ∧
    (¬(r.status = Status.Removed ∧ r.last_seen < cutoff) →
      (sweep cutoff st).records id = some r ∧
        (sweep cutoff st).history id = st.history id) := by
  constructor <;> intro hc <;> simp [sweep, h, hc]

/-- Witness for C7 at a concrete `Removed` record. -/
theorem sweeper_deletes_exactly_aged_removed_witness :
    ((recA.status = Status.Removed ∧ recA.last_seen < 100) →
      (sweep 100 storeA).records (obsId obsA) = none ∧
        (sweep 100 storeA).history (obsId obsA) = []) ∧
    (¬(recA.status = Status.Removed ∧ recA.last_seen < 100) →
      (sweep 100 storeA).records (obsId obsA) = some recA ∧
        (sweep 100 storeA).history (obsId obsA) =
          storeA.history (obsId obsA)) :=
  sweeper_deletes_exactly_aged_removed 100 storeA (obsId obsA) recA
    (by simp [storeA])

/-!
## C10: the enhanced search endpoint masks per-company failures
-/

lemma mem_foldl_append_acc {α β : Type} (f : α → List β) (l : List α)
    (acc : List β) (x : β) (hx : x ∈ acc) :
    x ∈ l.foldl (fun s b => s ++ f b) acc := by
  induction l generalizing acc with
  | nil => exact hx
  | cons hd tl ih =>
      rw [List.foldl_cons]
      exact ih (acc ++ f hd) (List.mem_append_left _ hx)

lemma mem_foldl_append {α β : Type} (f : α → List β) (l : List α)
    (acc : List β) (a : α) (x : β) (ha : a ∈ l) (hx : x ∈ f a) :
    x ∈ l.foldl (fun s b => s ++ f b) acc := by
  induction l generalizing acc with
  | nil => cases ha
  | cons hd tl ih =>
      rw [List.foldl_cons]
      rcases List.mem_cons.mp ha with h | h
      · subst h
        exact mem_foldl_append_acc f tl _ x (List.mem_append_right _ hx)
      · exact ih (acc ++ f hd) h

/-- C10: with a valid request, every per-company failure (JSON parse
error or thrown company error) is masked — a fabricated fallback
listing tagged `OPENAI_FALLBACK` (resp. `ERROR_FALLBACK`) is appended
for that company and the endpoint still answers `success: true`; only
an error before the company loop yields `success: false` with an empty
jobs array. -/
theorem enhanced_search_masks_company_failures (companies : List String)
    (criteria : SearchCriteria) (now : Nat)
    (outcome : String → CompanyOutcome) (rand : String → Nat) (c : String)
    (hne : companies ≠ []) :
    (POSTEnhanced true companies criteria now outcome rand false).success
        = true ∧
    (c ∈ companies.take 3 → outcome c = CompanyOutcome.parseError →
      ∃ j ∈ (POSTEnhanced true companies criteria now outcome rand false).jobs,
        j.company_name = c ∧ j.search_method = "OPENAI_FALLBACK") ∧
    (c ∈ companies.take 3 → outcome c = CompanyOutcome.companyError →
      ∃ j ∈ (POSTEnhanced true companies criteria now outcome rand false).jobs,
        j.company_name = c ∧ j.search_method = "ERROR_FALLBACK") ∧
    POSTEnhanced true companies criteria now outcome rand true =
      ⟨false, [], 500⟩ := by
  have hne' : companies.isEmpty = false := by
    cases companies
    · exact absurd rfl hne
    · rfl
  have hjobs : (POSTEnhanced true companies criteria now outcome rand
      false).jobs =
      (companies.take 3).foldl
        (fun acc c' =>
          acc ++ processCompany c' criteria now (rand c') (outcome c')) [] := by
    simp [POSTEnhanced, hne']
  refine ⟨by simp [POSTEnhanced, hne'], ?_, ?_, rfl⟩
  · intro hc ho
    have hx : ∃ j ∈ processCompany c criteria now (rand c) (outcome c),
        j.company_name = c ∧ j.search_method = "OPENAI_FALLBACK" := by
      rw [ho]
      exact ⟨_, List.mem_singleton_self _, rfl, rfl⟩
    obtain ⟨j, hj, hprop⟩ := hx
    refine ⟨j, ?_, hprop⟩
    rw [hjobs]
    exact mem_foldl_append _ _ _ c j hc hj
  · intro hc ho
    have hx : ∃ j ∈ processCompany c criteria now (rand c) (outcome c),
        j.company_name = c ∧ j.search_method = "ERROR_FALLBACK" := by
      rw [ho]
      exact ⟨_, List.mem_singleton_self _, rfl, rfl⟩
    obtain ⟨j, hj, hprop⟩ := hx
    refine ⟨j, ?_, hprop⟩
    rw [hjobs]
    exact mem_foldl_append _ _ _ c j hc hj

/-- Witness for C10 at a one-company request whose processing throws. -/
theorem enhanced_search_masks_company_failures_witness :
    (POSTEnhanced true ["Acme"] criteriaA 7
        (fun _ => CompanyOutcome.companyError) (fun _ => 0) false).success
        = true ∧
    ("Acme" ∈ (["Acme"] : List String).take 3 →
      (fun _ => CompanyOutcome.companyError) "Acme"
          = CompanyOutcome.parseError →
      ∃ j ∈ (POSTEnhanced true ["Acme"] criteriaA 7
          (fun _ => CompanyOutcome.companyError) (fun _ => 0) false).jobs,
        j.company_name = "Acme" ∧ j.search_method = "OPENAI_FALLBACK") ∧
    ("Acme" ∈ (["Acme"] : List String).take 3 →
      (fun _ => CompanyOutcome.companyError) "Acme"
          = CompanyOutcome.companyError →
      ∃ j ∈ (POSTEnhanced true ["Acme"] criteriaA 7
          (fun _ => CompanyOutcome.companyError) (fun _ => 0) false).jobs,
        j.company_name = "Acme" ∧ j.search_method = "ERROR_FALLBACK") ∧
    POSTEnhanced true ["Acme"] criteriaA 7
        (fun _ => CompanyOutcome.companyError) (fun _ => 0) true =
      ⟨false, [], 500⟩ :=
  enhanced_search_masks_company_failures ["Acme"] criteriaA 7
    (fun _ => CompanyOutcome.companyError) (fun _ => 0) "Acme"
    (by simp)

/-!
## C4: reappearance restarts the lifecycle as New
-/

/-- C4: an observation of a successful batch whose derived id matches an
existing `Removed` record revives it as `New`: all observation-carried
fields and the fingerprint are refreshed, `last_seen` is set to `now`,
and one `New` history entry is appended. -/
theorem reappeared_listing_restarts_as_new (org : String)
    (batch : List ListingObservation) (now : Nat) (st : Store)
    (o : ListingObservation) (r : JobRecord) (hmem : o ∈ batch)
    (hnodup : (batch.map obsId).Nodup)
    (hr : st.records (obsId o) = some r)
    (hrem : r.status = Status.Removed) :
    (reconcile org true batch now st).records (obsId o) =
      some (refreshJob now o Status.New r) ∧
    (reconcile org true batch now st).history (obsId o) =
      st.history (obsId o) ++ [⟨obsId o, Status.New, now⟩] := by
  obtain ⟨h1, h2⟩ := reconcile_observed org batch now st o hmem hnodup
  rw [hr] at h1 h2
  constructor
  · rw [h1]
    simp [stepRecord, hrem]
  · rw [h2]
    simp [stepEntries, hrem]

/-- Witness for C4: a concrete `Removed` record revived by `obsA`. -/
theorem reappeared_listing_restarts_as_new_witness :
    (reconcile "Acme" true [obsA] 9 storeA).records (obsId obsA) =
      some (refreshJob 9 obsA Status.New recA) ∧
    (reconcile "Acme" true [obsA] 9 storeA).history (obsId obsA) =
      storeA.history (obsId obsA) ++ [⟨obsId obsA, Status.New, 9⟩] :=
  reappeared_listing_restarts_as_new "Acme" [obsA] 9 storeA obsA recA
    (List.mem_singleton_self _) (by simp) (by simp [storeA]) rfl

/-!
## C6: unobserved records are marked Removed; Removed records are frozen
-/

/-- C6: after a successful run, a pre-existing record of the organization
whose id was not in the batch is marked `Removed` with exactly one
`Removed` history entry appended while `last_seen` and every other
field keep their prior values; and a record already `Removed` is left
completely unchanged by the run. -/
theorem unobserved_record_marked_removed (org : String)
    (batch : List ListingObservation) (now : Nat) (st : Store) (id : Nat)
    (r : JobRecord) (hr : st.records id = some r)
    (horg : r.organization = org) (hid : id ∉ batch.map obsId) :
    (r.status ≠ Status.Removed →
      (reconcile org true batch now st).records id =
        some { r with status := Status.Removed } ∧
      (reconcile org true batch now st).history id =
        st.history id ++ [⟨id, Status.Removed, now⟩]) ∧
    (r.status = Status.Removed →
      (reconcile org true batch now st).records id = some r ∧
      (reconcile org true batch now st).history id = st.history id) := by
  have hne : ∀ o ∈ batch, obsId o ≠ id :=
    fun o ho he => hid (he ▸ List.mem_map_of_mem obsId ho)
  have hfr : (batch.foldl (processObservation now) st).records id = some r := by
    rw [foldl_records_ne now batch st id hne, hr]
  have hfh : (batch.foldl (processObservation now) st).history id =
      st.history id := foldl_history_ne now batch st id hne
  constructor
  · intro hstat
    constructor
    · rw [reconcile_true, markRemoved_records_some _ _ _ _ _ _ hfr,
        if_pos ⟨horg, hid, hstat⟩]
    · rw [reconcile_true, markRemoved_history_some _ _ _ _ _ _ hfr,
        if_pos ⟨horg, hid, hstat⟩, hfh]
  · intro hstat
    constructor
    · rw [reconcile_true, markRemoved_records_some _ _ _ _ _ _ hfr,
        if_neg (fun hc => hc.2.2 hstat)]
    · rw [reconcile_true, markRemoved_history_some _ _ _ _ _ _ hfr,
        if_neg (fun hc => hc.2.2 hstat), hfh]

/-- Witness for C6: a concrete `Seen` record of the organization absent
from an empty successful batch. -/
theorem unobserved_record_marked_removed_witness :
    (recB.status ≠ Status.Removed →
      (reconcile "Acme" true [] 9 storeB).records 999 =
        some { recB with status := Status.Removed } ∧
      (reconcile "Acme" true [] 9 storeB).history 999 =
        storeB.history 999 ++ [⟨999, Status.Removed, 9⟩]) ∧
    (recB.status = Status.Removed →
      (reconcile "Acme" true [] 9 storeB).records 999 = some recB ∧
      (reconcile "Acme" true [] 9 storeB).history 999 =
        storeB.history 999) :=
  unobserved_record_marked_removed "Acme" [] 9 storeB 999 recB
    (by simp [storeB]) rfl (by simp)

/-!
## C9: last_seen >= first_seen in every reachable state
-/

lemma stepRecord_timeBounded (now : Nat) (o : ListingObservation)
    (cur : Option JobRecord)
    (h : ∀ r, cur = some r → r.first_seen ≤ r.last_seen ∧ r.last_seen ≤ now) :
    (stepRecord now o cur).first_seen ≤ (stepRecord now o cur).last_seen ∧
    (stepRecord now o cur).last_seen ≤ now := by
  cases cur with
  | none => exact ⟨Nat.le_refl now, Nat.le_refl now⟩
  | some r =>
      obtain ⟨h1, h2⟩ := h r rfl
      simp only [stepRecord, refreshJob]
      split_ifs <;> exact ⟨Nat.le_trans h1 h2, Nat.le_refl now⟩

lemma TimeBounded_mono (st : Store) (t now : Nat) (h : TimeBounded st t)
    (hle : t ≤ now) : TimeBounded st now :=
  fun id r hr => ⟨(h id r hr).1, Nat.le_trans (h id r hr).2 hle⟩

lemma TimeBounded_processObservation (now : Nat) (st : Store)
    (o : ListingObservation) (h : TimeBounded st now) :
    TimeBounded (processObservation now st o) now := by
  intro j r hj
  by_cases hje : j = obsId o
  · subst hje
    rw [processObservation_records_self] at hj
    cases hj
    exact stepRecord_timeBounded now o (st.records (obsId o))
      (fun r' hr' => h (obsId o) r' hr')
  · rw [processObservation_records_ne now st o j hje] at hj
    exact h j r hj

lemma TimeBounded_foldl (now : Nat) (batch : List ListingObservation)
    (st : Store) (h : TimeBounded st now) :
    TimeBounded (batch.foldl (processObservation now) st) now := by
  induction batch generalizing st with
  | nil => exact h
  | cons o l ih =>
      rw [List.foldl_cons]
      exact ih (processObservation now st o)
        (TimeBounded_processObservation now st o h)

lemma TimeBounded_markRemoved (org : String) (ids : List Nat) (now t : Nat)
    (st : Store) (h : TimeBounded st t) :
    TimeBounded (markRemoved org ids now st) t := by
  intro j r hj
  cases hrec : st.records j with
  | none => rw [markRemoved_records_none _ _ _ _ _ hrec] at hj; cases hj
  | some r0 =>
      rw [markRemoved_records_some _ _ _ _ _ _ hrec] at hj
      have h0 := h j r0 hrec
      split_ifs at hj <;> cases hj <;> exact h0

lemma TimeBounded_sweep (cutoff : Nat) (st : Store) (t : Nat)
    (h : TimeBounded st t) : TimeBounded (sweep cutoff st) t := by
  intro j r hj
  cases hrec : st.records j with
  | none => simp [sweep, hrec] at hj
  | some r0 =>
      simp only [sweep, hrec] at hj
      split_ifs at hj
      all_goals cases hj
      all_goals exact h j _ hrec

lemma reachable_timeBounded (st : Store) (t : Nat) (h : ReachableAt st t) :
    TimeBounded st t := by
  induction h with
  | init => intro id r hr; cases hr
  | run org success batch now st' t' hst hle ih =>
      cases success with
      | false => exact TimeBounded_mono st' t' now ih hle
      | true =>
          rw [reconcile_true]
          exact TimeBounded_markRemoved _ _ _ _ _
            (TimeBounded_foldl now batch st'
              (TimeBounded_mono st' t' now ih hle))
  | sweepStep cutoff st' t' hst ih => exact TimeBounded_sweep cutoff st' t' ih

/-- C9: in every store state reachable by reconciliation runs (run at
nondecreasing wall-clock times) and retention sweeps, every record
satisfies `first_seen ≤ last_seen`. -/
theorem timestamps_monotone (st : Store) (t : Nat) (h : ReachableAt st t)
    (id : Nat) (r : JobRecord) (hr : st.records id = some r) :
    r.first_seen ≤ r.last_seen :=
  (reachable_timeBounded st t h id r hr).1

/-- Witness for C9 at the store reached by one concrete run. -/
theorem timestamps_monotone_witness :
    (insertJob 1 (obsId obsA) obsA).first_seen ≤
      (insertJob 1 (obsId obsA) obsA).last_seen :=
  timestamps_monotone (reconcile "Acme" true [obsA] 1 emptyStore) 1
    (ReachableAt.run "Acme" true [obsA] 1 emptyStore 0 ReachableAt.init
      (Nat.zero_le 1))
    (obsId obsA) (insertJob 1 (obsId obsA) obsA) (by decide)

/-!
## C5: the history log has no consecutive duplicate statuses
-/

lemma WFat_some (st : Store) (id : Nat) (r : JobRecord)
    (h : st.records id = some r) :
    WFat st id ↔
      (r.job_id = id ∧ (statuses st id).getLast? = some r.status ∧
        List.Chain' (fun a b => a ≠ b) (statuses st id)) := by
  unfold WFat
  rw [h]

lemma WFat_none (st : Store) (id : Nat) (h : st.records id = none) :
    WFat st id ↔ st.history id = [] := by
  unfold WFat
  rw [h]

lemma WFat_ext (st st' : Store) (j : Nat)
    (hr : st'.records j = st.records j) (hh : st'.history j = st.history j)
    (h : WFat st j) : WFat st' j := by
  have hs : statuses st' j = statuses st j := by unfold statuses; rw [hh]
  unfold WFat at h ⊢
  rw [hr, hs, hh]
  exact h

lemma chain'_ne_concat (l : List Status) (a b : Status)
    (hc : List.Chain' (fun x y => x ≠ y) l) (hl : l.getLast? = some a)
    (hab : a ≠ b) :
    List.Chain' (fun x y => x ≠ y) (l ++ [b]) := by
  refine List.chain'_append.mpr ⟨hc, List.chain'_singleton b, ?_⟩
  intro x hx y hy
  rw [hl] at hx
  cases hx
  cases hy
  exact hab

lemma statuses_processObservation_self (now : Nat) (st : Store)
    (o : ListingObservation) :
    statuses (processObservation now st o) (obsId o) =
      statuses st (obsId o) ++
        (stepEntries now o (st.records (obsId o))).map HistoryEntry.status := by
  unfold statuses
  rw [processObservation_history_self, List.map_append]

lemma stepRecord_removed (now : Nat) (o : ListingObservation) (r : JobRecord)
    (h1 : r.status = Status.Removed) :
    stepRecord now o (some r) = refreshJob now o Status.New r := by
  simp only [stepRecord]
  rw [if_pos h1]

lemma stepEntries_removed (now : Nat) (o : ListingObservation) (r : JobRecord)
    (h1 : r.status = Status.Removed) :
    stepEntries now o (some r) = [⟨obsId o, Status.New, now⟩] := by
  simp only [stepEntries]
  rw [if_pos h1]

lemma stepRecord_modified (now : Nat) (o : ListingObservation) (r : JobRecord)
    (h1 : r.status ≠ Status.Removed) (h2 : obsHash o ≠ r.content_hash) :
    stepRecord now o (some r) = refreshJob now o Status.Modified r := by
  simp only [stepRecord]
  rw [if_neg h1, if_pos h2]

lemma stepEntries_modified (now : Nat) (o : ListingObservation) (r : JobRecord)
    (h1 : r.status ≠ Status.Removed) (h2 : obsHash o ≠ r.content_hash) :
    stepEntries now o (some r) =
      if r.status ≠ Status.Modified then [⟨obsId o, Status.Modified, now⟩]
      else [] := by
  simp only [stepEntries]
  rw [if_neg h1, if_pos h2]

lemma stepRecord_seen (now : Nat) (o : ListingObservation) (r : JobRecord)
    (h1 : r.status ≠ Status.Removed) (h2 : ¬obsHash o ≠ r.content_hash) :
    stepRecord now o (some r) =
      { r with
        status := Status.Seen
        last_seen := now } := by
  simp only [stepRecord]
  rw [if_neg h1, if_neg h2]

lemma stepEntries_seen (now : Nat) (o : ListingObservation) (r : JobRecord)
    (h1 : r.status ≠ Status.Removed) (h2 : ¬obsHash o ≠ r.content_hash) :
    stepEntries now o (some r) =
      if r.status ≠ Status.Seen then [⟨obsId o, Status.Seen, now⟩]
      else [] := by
  simp only [stepEntries]
  rw [if_neg h1, if_neg h2]

lemma WF_processObservation (now : Nat) (st : Store) (o : ListingObservation)
    (h : WF st) : WF (processObservation now st o) := by
  intro j
  by_cases hj : j = obsId o
  case neg =>
    exact WFat_ext st _ j (processObservation_records_ne now st o j hj)
      (processObservation_history_ne now st o j hj) (h j)
  case pos =>
    subst hj
    have hrecs := processObservation_records_self now st o
    have hsts := statuses_processObservation_self now st o
    cases hrec : st.records (obsId o) with
    | none =>
        have hemp : st.history (obsId o) = [] :=
          (WFat_none st _ hrec).mp (h _)
        have hemp' : statuses st (obsId o) = [] := by
          unfold statuses
          rw [hemp]
          rfl
        rw [hrec] at hrecs
        refine (WFat_some _ _ _ hrecs).mpr ⟨rfl, ?_, ?_⟩
        · rw [hsts, hrec, hemp']
          rfl
        · rw [hsts, hrec, hemp']
          exact List.chain'_singleton _
    | some r =>
        obtain ⟨hid, hlast, hchain⟩ := (WFat_some st _ r hrec).mp (h _)
        rw [hrec] at hrecs hsts
        have hjid : (stepRecord now o (some r)).job_id = r.job_id := by
          simp only [stepRecord, refreshJob]
          split_ifs <;> rfl
        refine (WFat_some _ _ _ hrecs).mpr ⟨by rw [hjid, hid], ?_, ?_⟩ <;>
          rw [hsts] <;> by_cases h1 : r.status = Status.Removed
        · -- getLast?, reappearance
          rw [stepEntries_removed now o r h1, stepRecord_removed now o r h1,
            List.map_cons, List.map_nil, List.getLast?_concat]
          rfl
        · by_cases h2 : obsHash o ≠ r.content_hash
          · rw [stepEntries_modified now o r h1 h2,
              stepRecord_modified now o r h1 h2]
            by_cases h3 : r.status = Status.Modified
            · rw [if_neg (not_not_intro h3), List.map_nil, List.append_nil,
                hlast, h3]
              rfl
            · rw [if_pos h3, List.map_cons, List.map_nil,
                List.getLast?_concat]
              rfl
          · rw [stepEntries_seen now o r h1 h2, stepRecord_seen now o r h1 h2]
            by_cases h3 : r.status = Status.Seen
            · rw [if_neg (not_not_intro h3), List.map_nil, List.append_nil,
                hlast, h3]
            · rw [if_pos h3, List.map_cons, List.map_nil,
                List.getLast?_concat]
        · -- Chain', reappearance
          rw [stepEntries_removed now o r h1, List.map_cons, List.map_nil]
          exact chain'_ne_concat _ _ _ hchain hlast
            (by rw [h1]; exact fun hc => Status.noConfusion hc)
        · by_cases h2 : obsHash o ≠ r.content_hash
          · rw [stepEntries_modified now o r h1 h2]
            by_cases h3 : r.status = Status.Modified
            · rw [if_neg (not_not_intro h3), List.map_nil, List.append_nil]
              exact hchain
            · rw [if_pos h3, List.map_cons, List.map_nil]
              exact chain'_ne_concat _ _ _ hchain hlast h3
          · rw [stepEntries_seen now o r h1 h2]
            by_cases h3 : r.status = Status.Seen
            · rw [if_neg (not_not_intro h3), List.map_nil, List.append_nil]
              exact hchain
            · rw [if_pos h3, List.map_cons, List.map_nil]
              exact chain'_ne_concat _ _ _ hchain hlast h3

lemma WF_foldl (now : Nat) (batch : List ListingObservation) (st : Store)
    (h : WF st) : WF (batch.foldl (processObservation now) st) := by
  induction batch generalizing st with
  | nil => exact h
  | cons o l ih =>
      rw [List.foldl_cons]
      exact ih (processObservation now st o) (WF_processObservation now st o h)

lemma statuses_markRemoved_marked (org : String) (ids : List Nat) (now : Nat)
    (st : Store) (j : Nat) (r : JobRecord) (hrec : st.records j = some r)
    (hc : r.organization = org ∧ j ∉ ids ∧ r.status ≠ Status.Removed) :
    statuses (markRemoved org ids now st) j =
      statuses st j ++ [Status.Removed] := by
  unfold statuses
  rw [markRemoved_history_some org ids now st j r hrec, if_pos hc,
    List.map_append]
  rfl

lemma WF_markRemoved (org : String) (ids : List Nat) (now : Nat) (st : Store)
    (h : WF st) : WF (markRemoved org ids now st) := by
  intro j
  cases hrec : st.records j with
  | none =>
      exact WFat_ext st _ j
        (by rw [markRemoved_records_none org ids now st j hrec, hrec])
        (markRemoved_history_none org ids now st j hrec) (h j)
  | some r =>
      obtain ⟨hid, hlast, hchain⟩ := (WFat_some st j r hrec).mp (h j)
      by_cases hc : r.organization = org ∧ j ∉ ids ∧ r.status ≠ Status.Removed
      · have hrecs : (markRemoved org ids now st).records j =
            some { r with status := Status.Removed } := by
          rw [markRemoved_records_some org ids now st j r hrec, if_pos hc]
        have hsts := statuses_markRemoved_marked org ids now st j r hrec hc
        refine (WFat_some _ j _ hrecs).mpr ⟨hid, ?_, ?_⟩
        · rw [hsts, List.getLast?_concat]
        · rw [hsts]
          exact chain'_ne_concat _ _ _ hchain hlast hc.2.2
      · exact WFat_ext st _ j
          (by rw [markRemoved_records_some org ids now st j r hrec,
            if_neg hc, hrec])
          (by rw [markRemoved_history_some org ids now st j r hrec,
            if_neg hc]) (h j)

lemma WF_sweep (cutoff : Nat) (st : Store) (h : WF st) :
    WF (sweep cutoff st) := by
  intro j
  cases hrec : st.records j with
  | none =>
      refine (WFat_none _ j (by simp [sweep, hrec])).mpr ?_
      have : (sweep cutoff st).history j = st.history j := by
        simp [sweep, hrec]
      rw [this]
      exact (WFat_none st j hrec).mp (h j)
  | some r =>
      by_cases hc : r.status = Status.Removed ∧ r.last_seen < cutoff
      · refine (WFat_none _ j (by simp [sweep, hrec, hc])).mpr ?_
        simp [sweep, hrec, hc]
      · exact WFat_ext st _ j (by simp [sweep, hrec, hc])
          (by simp [sweep, hrec, hc]) (h j)

lemma WF_empty : WF emptyStore := fun id => (WFat_none _ id rfl).mpr rfl

lemma reachable_WF (st : Store) (t : Nat) (h : ReachableAt st t) : WF st := by
  induction h with
  | init => exact WF_empty
  | run org success batch now st' t' hst hle ih =>
      cases success with
      | false => exact ih
      | true =>
          rw [reconcile_true]
          exact WF_markRemoved _ _ _ _ (WF_foldl now batch st' ih)
  | sweepStep cutoff st' t' hst ih => exact WF_sweep cutoff st' ih

/-- C5: in every reachable store state the status sequence of every
`job_id`'s history (in `changed_at` order) has no two consecutive equal
statuses; reconciliation appends a `Seen` (or `Modified`) entry only
when the previous status differed, so the invariant is preserved by
every run and sweep. -/
theorem history_no_consecutive_duplicates (st : Store) (t : Nat)
    (h : ReachableAt st t) (id : Nat) :
    List.Chain' (fun a b => a ≠ b) (statuses st id) := by
  have hW := reachable_WF st t h id
  cases hrec : st.records id with
  | some r => exact ((WFat_some st id r hrec).mp hW).2.2
  | none =>
      have := (WFat_none st id hrec).mp hW
      unfold statuses
      rw [this]
      exact List.chain'_nil

/-- Witness for C5 at the store reached by one concrete run. -/
theorem history_no_consecutive_duplicates_witness :
    List.Chain' (fun a b => a ≠ b)
      (statuses (reconcile "Acme" true [obsA] 1 emptyStore) (obsId obsA)) :=
  history_no_consecutive_duplicates
    (reconcile "Acme" true [obsA] 1 emptyStore) 1
    (ReachableAt.run "Acme" true [obsA] 1 emptyStore 0 ReachableAt.init
      (Nat.zero_le 1)) (obsId obsA)

/-!
## C8: idempotence of no-op runs
-/

lemma clearLS_fields (r r' : JobRecord) (h : clearLS r' = clearLS r) :
    r'.status = r.status ∧ r'.content_hash = r.content_hash ∧
      r'.organization = r.organization := by
  obtain ⟨a, b, c, d, e, f, g, h8, i, s⟩ := r
  obtain ⟨a', b', c', d', e', f', g', h8', i', s'⟩ := r'
  simp only [clearLS, JobRecord.mk.injEq, true_and] at h
  obtain ⟨rfl, rfl, rfl, rfl, rfl, rfl, rfl, rfl, rfl⟩ := h
  exact ⟨rfl, rfl, rfl⟩

lemma noOpFrom_refl (st : Store) : NoOpFrom st st :=
  ⟨fun _ => rfl, fun _ => rfl⟩

lemma noOpFrom_trans (st1 st2 st3 : Store) (h1 : NoOpFrom st1 st2)
    (h2 : NoOpFrom st2 st3) : NoOpFrom st1 st3 :=
  ⟨fun j => (h2.1 j).trans (h1.1 j), fun j => (h2.2 j).trans (h1.2 j)⟩

lemma records_of_noOpFrom (st st' : Store) (j : Nat) (r : JobRecord)
    (h : NoOpFrom st st') (hr : st.records j = some r) :
    ∃ r', st'.records j = some r' ∧ clearLS r' = clearLS r := by
  have hj := h.2 j
  rw [hr] at hj
  cases hrec : st'.records j with
  | none => rw [hrec] at hj; cases hj
  | some r' =>
      rw [hrec] at hj
      injection hj with he
      exact ⟨r', rfl, he⟩

lemma synced_transport (batch : List ListingObservation) (st st' : Store)
    (hs : Synced batch st) (hR : NoOpFrom st st') : Synced batch st' := by
  intro o ho
  obtain ⟨r, hr, hh, hstat⟩ := hs o ho
  obtain ⟨r', hr', hcl⟩ := records_of_noOpFrom st st' _ r hR hr
  obtain ⟨h1, h2, -⟩ := clearLS_fields r r' hcl
  exact ⟨r', hr', by rw [h2]; exact hh, by rw [h1]; exact hstat⟩

lemma nomarkable_transport (org : String) (ids : List Nat) (st st' : Store)
    (hnm : NoMarkable org ids st) (hR : NoOpFrom st st') :
    NoMarkable org ids st' := by
  intro j r' hrec' horg hid
  have hj := hR.2 j
  rw [hrec'] at hj
  cases hrec : st.records j with
  | none => rw [hrec] at hj; cases hj
  | some r =>
      rw [hrec] at hj
      injection hj with he
      obtain ⟨h1, -, h3⟩ := clearLS_fields r r' he
      rw [h1]
      exact hnm j r hrec (by rw [← h3]; exact horg) hid

lemma stepRecord_hash (now : Nat) (o : ListingObservation)
    (cur : Option JobRecord) :
    (stepRecord now o cur).content_hash = obsHash o := by
  cases cur with
  | none => rfl
  | some r =>
      by_cases h1 : r.status = Status.Removed
      · rw [stepRecord_removed now o r h1]; rfl
      · by_cases h2 : obsHash o ≠ r.content_hash
        · rw [stepRecord_modified now o r h1 h2]; rfl
        · rw [stepRecord_seen now o r h1 h2]
          exact (not_ne_iff.mp h2).symm

lemma stepRecord_not_removed (now : Nat) (o : ListingObservation)
    (cur : Option JobRecord) :
    (stepRecord now o cur).status ≠ Status.Removed := by
  cases cur with
  | none => exact fun hc => Status.noConfusion hc
  | some r =>
      by_cases h1 : r.status = Status.Removed
      · rw [stepRecord_removed now o r h1]
        exact fun hc => Status.noConfusion hc
      · by_cases h2 : obsHash o ≠ r.content_hash
        · rw [stepRecord_modified now o r h1 h2]
          exact fun hc => Status.noConfusion hc
        · rw [stepRecord_seen now o r h1 h2]
          exact fun hc => Status.noConfusion hc

lemma stepRecord_synced (now : Nat) (o : ListingObservation) (r : JobRecord)
    (hh : r.content_hash = obsHash o) (hs : r.status = Status.Seen) :
    stepRecord now o (some r) = { r with last_seen := now } := by
  rw [stepRecord_seen now o r (by rw [hs]; exact fun hc => Status.noConfusion hc)
    (fun hne => hne hh.symm)]
  obtain ⟨a, b, c, d, e, f, g, h8, i, s⟩ := r
  cases hs
  rfl

lemma stepEntries_synced (now : Nat) (o : ListingObservation) (r : JobRecord)
    (hh : r.content_hash = obsHash o) (hs : r.status = Status.Seen) :
    stepEntries now o (some r) = [] := by
  rw [stepEntries_seen now o r (by rw [hs]; exact fun hc => Status.noConfusion hc)
    (fun hne => hne hh.symm)]
  rw [if_neg (not_not_intro hs)]

lemma foldl_noop (now : Nat) (batch : List ListingObservation) (st : Store)
    (hsync : Synced batch st) :
    NoOpFrom st (batch.foldl (processObservation now) st) := by
  induction batch generalizing st with
  | nil => exact noOpFrom_refl st
  | cons o l ih =>
      obtain ⟨r, hr, hh, hs⟩ := hsync o (List.mem_cons_self o l)
      have hstep : NoOpFrom st (processObservation now st o) := by
        constructor
        · intro j
          by_cases hj : j = obsId o
          · subst hj
            rw [processObservation_history_self, hr,
              stepEntries_synced now o r hh hs, List.append_nil]
          · exact processObservation_history_ne now st o j hj
        · intro j
          by_cases hj : j = obsId o
          · subst hj
            rw [processObservation_records_self, hr,
              stepRecord_synced now o r hh hs]
            rfl
          · rw [processObservation_records_ne now st o j hj]
      have hsync' : Synced l (processObservation now st o) :=
        synced_transport l st _
          (fun o' ho' => hsync o' (List.mem_cons_of_mem o ho')) hstep
      rw [List.foldl_cons]
      exact noOpFrom_trans st _ _ hstep (ih _ hsync')

lemma markRemoved_noop (org : String) (ids : List Nat) (now : Nat)
    (st : Store) (hnm : NoMarkable org ids st) :
    (∀ j, (markRemoved org ids now st).records j = st.records j) ∧
    (∀ j, (markRemoved org ids now st).history j = st.history j) := by
  constructor
  · intro j
    cases hrec : st.records j with
    | none => rw [markRemoved_records_none org ids now st j hrec]
    | some r =>
        have hcond : ¬(r.organization = org ∧ j ∉ ids ∧
            r.status ≠ Status.Removed) :=
          fun hc => hc.2.2 (hnm j r hrec hc.1 hc.2.1)
        rw [markRemoved_records_some org ids now st j r hrec, if_neg hcond]
  · intro j
    cases hrec : st.records j with
    | none => rw [markRemoved_history_none org ids now st j hrec]
    | some r =>
        have hcond : ¬(r.organization = org ∧ j ∉ ids ∧
            r.status ≠ Status.Removed) :=
          fun hc => hc.2.2 (hnm j r hrec hc.1 hc.2.1)
        rw [markRemoved_history_some org ids now st j r hrec, if_neg hcond]

lemma reconcile_noop (org : String) (batch : List ListingObservation)
    (now : Nat) (st : Store) (hsync : Synced batch st)
    (hnm : NoMarkable org (batch.map obsId) st) :
    NoOpFrom st (reconcile org true batch now st) := by
  have h1 := foldl_noop now batch st hsync
  have hnm1 := nomarkable_transport org (batch.map obsId) st _ hnm h1
  have h2 := markRemoved_noop org (batch.map obsId) now _ hnm1
  constructor
  · intro j
    rw [reconcile_true, h2.2 j, h1.1 j]
  · intro j
    rw [reconcile_true, h2.1 j]
    exact h1.2 j

lemma reconcile_hash_ready (org : String) (batch : List ListingObservation)
    (now : Nat) (st : Store) (hnodup : (batch.map obsId).Nodup) :
    ∀ o ∈ batch, ∃ r, (reconcile org true batch now st).records (obsId o) =
      some r ∧ r.content_hash = obsHash o ∧ r.status ≠ Status.Removed := by
  intro o ho
  obtain ⟨hrec, -⟩ := reconcile_observed org batch now st o ho hnodup
  exact ⟨_, hrec, stepRecord_hash now o _, stepRecord_not_removed now o _⟩

lemma reconcile_synced_of_ready (org : String)
    (batch : List ListingObservation) (now : Nat) (st : Store)
    (hnodup : (batch.map obsId).Nodup)
    (hready : ∀ o ∈ batch, ∃ r, st.records (obsId o) = some r ∧
      r.content_hash = obsHash o ∧ r.status ≠ Status.Removed) :
    Synced batch (reconcile org true batch now st) := by
  intro o ho
  obtain ⟨hrec, -⟩ := reconcile_observed org batch now st o ho hnodup
  obtain ⟨r, hr, hh, hs⟩ := hready o ho
  rw [hr] at hrec
  rw [stepRecord_seen now o r hs (fun hne => hne hh.symm)] at hrec
  exact ⟨_, hrec, hh, rfl⟩

lemma reconcile_nomarkable (org : String) (batch : List ListingObservation)
    (now : Nat) (st : Store) :
    NoMarkable org (batch.map obsId) (reconcile org true batch now st) := by
  intro j r hrec horg hid
  rw [reconcile_true] at hrec
  cases hinner : (batch.foldl (processObservation now) st).records j with
  | none => rw [markRemoved_records_none _ _ _ _ _ hinner] at hrec; cases hrec
  | some r0 =>
      rw [markRemoved_records_some _ _ _ _ _ _ hinner] at hrec
      by_cases hc : r0.organization = org ∧ j ∉ batch.map obsId ∧
          r0.status ≠ Status.Removed
      · rw [if_pos hc] at hrec
        injection hrec with he
        rw [← he]
      · rw [if_neg hc] at hrec
        injection hrec with he
        subst he
        by_contra hs
        exact hc ⟨horg, hid, hs⟩

/-- Counterexample to C8 as stated: starting from the empty store,
reconciling the batch `[obsA]` and then reconciling the identical batch
again does append a history entry on the second run (the record
inserted as `New` settles into `Seen`), so the second run is not
field-preserving up to `last_seen`. -/
theorem second_run_appends_counterexample :
    (reconcile "Acme" true [obsA] 2
        (reconcile "Acme" true [obsA] 1 emptyStore)).history (obsId obsA) ≠
      (reconcile "Acme" true [obsA] 1 emptyStore).history (obsId obsA) ∧
    ((reconcile "Acme" true [obsA] 1 emptyStore).records
        (obsId obsA)).map JobRecord.status = some Status.New ∧
    ((reconcile "Acme" true [obsA] 2
        (reconcile "Acme" true [obsA] 1 emptyStore)).records
        (obsId obsA)).map JobRecord.status = some Status.Seen := by
  refine ⟨?_, by decide, by decide⟩
  decide

/-- C8 (amended): for a batch with pairwise-distinct derived ids, once
the batch has been reconciled twice in a row, reconciling the same
unchanged batch again changes no field of any record except
`last_seen` and appends no history entry; every observed record's
status is `Seen` from the second run on.  (As stated the claim fails:
the second of two runs still appends the `New → Seen` transition
entries, see the counterexample.) -/
theorem reconcile_noop_after_two_runs (org : String)
    (batch : List ListingObservation) (st : Store) (now1 now2 now3 : Nat)
    (hnodup : (batch.map obsId).Nodup) :
    (∀ j, (reconcile org true batch now3 (reconcile org true batch now2
        (reconcile org true batch now1 st))).history j =
      (reconcile org true batch now2
        (reconcile org true batch now1 st)).history j) ∧
    (∀ j, ((reconcile org true batch now3 (reconcile org true batch now2
        (reconcile org true batch now1 st))).records j).map clearLS =
      ((reconcile org true batch now2
        (reconcile org true batch now1 st)).records j).map clearLS) ∧
    (∀ o ∈ batch, ∃ r, (reconcile org true batch now2
        (reconcile org true batch now1 st)).records (obsId o) = some r ∧
      r.status = Status.Seen ∧
      (reconcile org true batch now3 (reconcile org true batch now2
        (reconcile org true batch now1 st))).records (obsId o) =
        some { r with last_seen := now3 }) := by
  have hready := reconcile_hash_ready org batch now1 st hnodup
  have hsync2 : Synced batch (reconcile org true batch now2
      (reconcile org true batch now1 st)) :=
    reconcile_synced_of_ready org batch now2 _ hnodup hready
  have hnm2 : NoMarkable org (batch.map obsId) (reconcile org true batch now2
      (reconcile org true batch now1 st)) :=
    reconcile_nomarkable org batch now2 _
  have hnoop := reconcile_noop org batch now3 _ hsync2 hnm2
  refine ⟨hnoop.1, hnoop.2, ?_⟩
  intro o ho
  obtain ⟨r, hr, hh, hs⟩ := hsync2 o ho
  obtain ⟨hrec3, -⟩ := reconcile_observed org batch now3 _ o ho hnodup
  rw [hr, stepRecord_synced now3 o r hh hs] at hrec3
  exact ⟨r, hr, hs, hrec3⟩

/-- Witness for the amended C8 at a concrete one-element batch. -/
theorem reconcile_noop_after_two_runs_witness :
    (∀ j, (reconcile "Acme" true [obsA] 3 (reconcile "Acme" true [obsA] 2
        (reconcile "Acme" true [obsA] 1 emptyStore))).history j =
      (reconcile "Acme" true [obsA] 2
        (reconcile "Acme" true [obsA] 1 emptyStore)).history j) ∧
    (∀ j, ((reconcile "Acme" true [obsA] 3 (reconcile "Acme" true [obsA] 2
        (reconcile "Acme" true [obsA] 1 emptyStore))).records j).map clearLS =
      ((reconcile "Acme" true [obsA] 2
        (reconcile "Acme" true [obsA] 1 emptyStore)).records j).map clearLS) ∧
    (∀ o ∈ [obsA], ∃ r, (reconcile "Acme" true [obsA] 2
        (reconcile "Acme" true [obsA] 1 emptyStore)).records (obsId o) =
        some r ∧
      r.status = Status.Seen ∧
      (reconcile "Acme" true [obsA] 3 (reconcile "Acme" true [obsA] 2
        (reconcile "Acme" true [obsA] 1 emptyStore))).records (obsId o) =
        some { r with last_seen := 3 }) :=
  reconcile_noop_after_two_runs "Acme" [obsA] emptyStore 1 2 3 (by simp)

end WorkOfferMonitor
